import Mathlib

/-!
# Verification of the Axon-Demo HTML base64-inlining converter

Shallow embedding of `src/B64/convertToBase64.js` (class `ImageToBase64Converter`).
HTML text and file paths are modelled as `List Char`; the filesystem as
association lists from path to content (text for the HTML directory, raw bytes
for the assets directory).  The three regex-substitution passes are modelled by
an executable matcher that reproduces the semantics of the JavaScript regex
`<tag([^>]*)\ssrc=["']([^"']+)["']([^>]*)>` with flags `g` and `i` under
`String.prototype.replace` (leftmost match, greedy backtracking of the
`[^>]*` group, scan resuming after each match).
-/

namespace B64

/-- Strings are modelled as lists of characters. -/
abbrev Str := List Char

/-- The single-quote character (U+0027), used by the `["']` character class. -/
def sq : Char := Char.ofNat 39

/-- The character set matched by JavaScript `\s` (also used by `String.trim`). -/
def jsWsChars : Str :=
  [' ', '\t', '\n', '\r', '\x0B', '\x0C', '\u00A0', '\u1680', '\u2000',
   '\u2001', '\u2002', '\u2003', '\u2004', '\u2005', '\u2006', '\u2007',
   '\u2008', '\u2009', '\u200A', '\u2028', '\u2029', '\u202F', '\u205F',
   '\u3000', '\uFEFF']

/-- JavaScript whitespace test. -/
def isJsWs (c : Char) : Bool := jsWsChars.contains c

/-- `strStartsWith pat s` : `s.startsWith(pat)` in JavaScript. -/
def strStartsWith : Str → Str → Bool
  | [], _ => true
  | _ :: _, [] => false
  | p :: ps, c :: cs => p = c && strStartsWith ps cs

/-- `strEndsWith pat s` : `s.endsWith(pat)` in JavaScript. -/
def strEndsWith (pat s : Str) : Bool := strStartsWith pat.reverse s.reverse

/-- JavaScript `String.trim` (drop leading and trailing `\s` characters). -/
def trimJs (l : Str) : Str := ((l.dropWhile isJsWs).reverse.dropWhile isJsWs).reverse

/-- JavaScript `s.replace(pat, "")` for a plain-string pattern: remove the
first occurrence of `pat` from `s` (the replacement used in
`resolveImagePath` is always the empty string). -/
def replaceFirst (pat : Str) : Str → Str
  | [] => []
  | c :: rest =>
    if strStartsWith pat (c :: rest) then List.drop pat.length (c :: rest)
    else c :: replaceFirst pat rest

/-- The component of a path after its last slash. -/
def lastComponent (p : Str) : Str := (p.reverse.takeWhile (fun c => !(c = '/'))).reverse

/-- Node `path.basename`: strip trailing slashes, then take the last component. -/
def basenameP (p : Str) : Str :=
  if p = [] then []
  else
    let stripped := (p.reverse.dropWhile (fun c => c = '/')).reverse
    if stripped = [] then "/".data
    else lastComponent stripped

/-- Node `path.extname`: the suffix of the last component from its last dot,
empty when there is no dot or the only dot is the leading (hidden-file) dot. -/
def extname (p : Str) : Str :=
  let b := lastComponent p
  if b = "..".data then []
  else
    let rt := b.reverse.takeWhile (fun c => !(c = '.'))
    if rt.length = b.length then []
    else if rt.length + 1 = b.length then []
    else '.' :: rt.reverse

/-- Lowercase every character (`String.toLowerCase` on ASCII data). -/
def lowerStr (l : Str) : Str := l.map Char.toLower

/-- Split a path at slash characters. -/
def splitOnSlash : Str → List Str
  | [] => [[]]
  | c :: rest =>
    let r := splitOnSlash rest
    if c = '/' then [] :: r
    else
      match r with
      | h :: t => (c :: h) :: t
      | [] => [[c]]

/-- Segment normalisation used by Node `path.normalize`: drop empty and `.`
segments, resolve `..` against the accumulated stack. -/
def normSegs (abs : Bool) : List Str → List Str → List Str
  | stack, [] => stack.reverse
  | stack, s :: rest =>
    if s = [] ∨ s = ".".data then normSegs abs stack rest
    else if s = "..".data then
      match stack with
      | [] => if abs then normSegs abs [] rest else normSegs abs [s] rest
      | t :: st2 =>
        if t = "..".data then normSegs abs (s :: stack) rest
        else normSegs abs st2 rest
    else normSegs abs (s :: stack) rest

/-- Node `path.normalize` for POSIX paths. -/
def normalizePath (p : Str) : Str :=
  if p = [] then ".".data
  else
    let abs : Bool := decide (p.head? = some '/')
    let trail : Bool := decide (p.getLast? = some '/')
    let segs := normSegs abs [] (splitOnSlash p)
    let core := List.intercalate "/".data segs
    let base := if abs then '/' :: core else if core = [] then ".".data else core
    if trail = true ∧ ¬ base.getLast? = some '/' then base ++ "/".data else base

/-- Node `path.join` restricted to two arguments, as used by the converter. -/
def pathJoin (a b : Str) : Str :=
  if a = [] ∧ b = [] then ".".data
  else if a = [] then normalizePath b
  else if b = [] then normalizePath a
  else normalizePath (a ++ '/' :: b)

/-- `this.supportedExtensions` from the constructor. -/
def supportedExtensions : List Str :=
  [".gif".data, ".webp".data, ".png".data, ".jpg".data, ".jpeg".data,
   ".svg".data, ".bmp".data, ".mp4".data]

/-- The `switch` over the lowercased extension in `imageToBase64`, including
its `default` fallback of `image/png`. -/
def mimeFromExt (ext : Str) : Str :=
  if ext = ".gif".data then "image/gif".data
  else if ext = ".webp".data then "image/webp".data
  else if ext = ".png".data then "image/png".data
  else if ext = ".jpg".data then "image/jpeg".data
  else if ext = ".jpeg".data then "image/jpeg".data
  else if ext = ".svg".data then "image/svg+xml".data
  else if ext = ".bmp".data then "image/bmp".data
  else if ext = ".mp4".data then "video/mp4".data
  else "image/png".data

/-- The base64 alphabet in index order. -/
def b64Alphabet : Str :=
  "ABCDEFGHIJKLMNOPQRSTUVWXYZabcdefghijklmnopqrstuvwxyz0123456789+/".data

/-- The base64 digit for a 6-bit value. -/
def b64Char (n : Nat) : Char := b64Alphabet.getD n 'A'

/-- Standard unwrapped base64 of a byte sequence (Node
`Buffer.toString('base64')`: 3-byte groups, `=` padding, no line breaks). -/
def base64Encode : List Nat → Str
  | b1 :: b2 :: b3 :: rest =>
    b64Char (b1 / 4) :: b64Char (b1 % 4 * 16 + b2 / 16) ::
      b64Char (b2 % 16 * 4 + b3 / 64) :: b64Char (b3 % 64) :: base64Encode rest
  | [b1, b2] => [b64Char (b1 / 4), b64Char (b1 % 4 * 16 + b2 / 16), b64Char (b2 % 16 * 4), '=']
  | [b1] => [b64Char (b1 / 4), b64Char (b1 % 4 * 16), '=', '=']
  | [] => []

/-- The assets directory: path of each media file mapped to its bytes. -/
abbrev AssetFS := List (Str × List Nat)

/-- The HTML working directory: path of each text file mapped to its content. -/
abbrev TextFS := List (Str × Str)

/-- Look a path up in an association-list filesystem (`fs.existsSync` /
`fs.readFileSync`). -/
def fsLookup {α : Type} : List (Str × α) → Str → Option α
  | [], _ => none
  | (q, w) :: rest, p => if q = p then some w else fsLookup rest p

/-- Write (create or overwrite) a file (`fs.writeFileSync` / `fs.copyFileSync`
target). -/
def fsWrite {α : Type} : List (Str × α) → Str → α → List (Str × α)
  | [], p, v => [(p, v)]
  | (q, w) :: rest, p, v =>
    if q = p then (p, v) :: rest else (q, w) :: fsWrite rest p v

/-- `resolveImagePath(src)`: trim, strip one of the three `assets` prefixes, or
fall back to the basename; join onto the assets directory.  Purely syntactic —
it takes no filesystem. -/
def resolveImagePath (assetsDir : Str) (src : Str) : Str :=
  let src := trimJs src
  if strStartsWith "./assets/".data src then
    pathJoin assetsDir (replaceFirst "./assets/".data src)
  else if strStartsWith "../assets/".data src then
    pathJoin assetsDir (replaceFirst "../assets/".data src)
  else if strStartsWith "assets/".data src then
    pathJoin assetsDir (replaceFirst "assets/".data src)
  else
    pathJoin assetsDir (basenameP src)

/-- `imageToBase64(imagePath)`: `none` when the file does not exist, otherwise
the data URI `data:<mime>;base64,<payload>` built from the file's bytes. -/
def imageToBase64 (assets : AssetFS) (p : Str) : Option Str :=
  match fsLookup assets p with
  | none => none
  | some bytes =>
    let ext := lowerStr (extname p)
    some ("data:".data ++ mimeFromExt ext ++ ";base64,".data ++ base64Encode bytes)

/-! ## The regex matcher

The three passes all use the shape `<tag([^>]*)\ssrc=["']([^"']+)["']([^>]*)>`
with flags `gi`.  A match attempt at a position proceeds as the JS backtracking
engine does: the literal `<tag` (case-insensitive), then the greedy group
`([^>]*)` tried from its longest extent downwards, then a deterministic tail —
one `\s`, the literal `src=` (case-insensitive), a quote, the greedy nonempty
`([^"']+)` (only its maximal extent can be followed by a quote), a quote, the
greedy `([^>]*)` (only its maximal extent can be followed by `>`), and `>`. -/

/-- Case-insensitive character comparison (the regex `i` flag on ASCII). -/
def ciEq (a b : Char) : Bool := a.toLower = b.toLower

/-- Case-insensitive literal-prefix test. -/
def ciPrefix : Str → Str → Bool
  | [], _ => true
  | _ :: _, [] => false
  | p :: ps, c :: cs => ciEq p c && ciPrefix ps cs

/-- Quote class `["']`. -/
def isQuote (c : Char) : Bool := c = '"' || c = sq

/-- Parse `\s src= ["'] ([^"']+) ["'] ([^>]*) >` at the head of `s`, returning
the two captured groups and the number of characters consumed. -/
def matchSrcTail (s : Str) : Option (Str × Str × Nat) :=
  match s with
  | [] => none
  | c :: s1 =>
    if isJsWs c && ciPrefix "src=".data s1 then
      match s1.drop 4 with
      | [] => none
      | q :: s3 =>
        if isQuote q then
          let g2 := s3.takeWhile (fun d => !(isQuote d))
          if g2 = [] then none
          else
            match s3.drop g2.length with
            | [] => none
            | q2 :: s5 =>
              if isQuote q2 then
                let g3 := s5.takeWhile (fun d => !(d = '>'))
                match s5.drop g3.length with
                | '>' :: _ => some (g2, g3, 1 + 4 + 1 + g2.length + 1 + g3.length + 1)
                | _ => none
              else none
        else none
    else none

/-- Backtracking search for the greedy `([^>]*)` group: try the split point `k`
(the group's length) from the longest candidate downwards, the JS engine's
order.  Returns `(beforeSrc, src, afterSrc, consumed)`. -/
def findSrcSplit (rest : Str) : Nat → Option (Str × Str × Str × Nat)
  | 0 =>
    match matchSrcTail rest with
    | some (src, g3, n) => some ([], src, g3, n)
    | none => none
  | k + 1 =>
    match matchSrcTail (rest.drop (k + 1)) with
    | some (src, g3, n) => some (rest.take (k + 1), src, g3, k + 1 + n)
    | none => findSrcSplit rest k

/-- Match the whole tag regex at the head of `s`: the literal `<tag`
(case-insensitive), then the backtracking split.  Returns the three captured
groups and the total match length. -/
def matchAtTag (tag : Str) (s : Str) : Option (Str × Str × Str × Nat) :=
  if ciPrefix ('<' :: tag) s then
    let rest := s.drop (tag.length + 1)
    let m := (rest.takeWhile (fun c => !(c = '>'))).length
    match findSrcSplit rest m with
    | some (g1, src, g3, n) => some (g1, src, g3, tag.length + 1 + n)
    | none => none
  else none

/-- The replacement callback shared (up to the tag literal) by the three
passes in `processHtmlFile`: keep tags that are already data URIs, skip
unsupported extensions and failed encodes, otherwise substitute
`<tag${beforeSrc} src="${base64Data}"${afterSrc}>`.  The `Bool` is the
contribution to the `modified` flag. -/
def rewriteTag (assetsDir : Str) (assets : AssetFS) (tag : Str)
    (m g1 src g3 : Str) : Str × Bool :=
  if strStartsWith "data:".data src then (m, false)
  else
    let imagePath := resolveImagePath assetsDir src
    let ext := lowerStr (extname imagePath)
    if ext ∈ supportedExtensions then
      match imageToBase64 assets imagePath with
      | some uri =>
        ('<' :: tag ++ g1 ++ " src=".data ++ '"' :: uri ++ '"' :: g3 ++ ">".data, true)
      | none => (m, false)
    else (m, false)

/-- `String.prototype.replace` with a `g`-flagged regex and a callback `f`:
scan left to right; at a match, emit `f match g1 src g3` and resume after the
match; otherwise copy one character.  The `Nat` is structural fuel (one unit
per step; a step consumes at least one character, so `s.length` suffices). -/
def replaceScanF (tag : Str) (f : Str → Str → Str → Str → Str × Bool) :
    Nat → Str → Str × Bool
  | 0, text => (text, false)
  | _ + 1, [] => ([], false)
  | n + 1, c :: rest =>
    match matchAtTag tag (c :: rest) with
    | some (g1, src, g3, len) =>
      let r := f ((c :: rest).take len) g1 src g3
      let s := replaceScanF tag f n ((c :: rest).drop len)
      (r.1 ++ s.1, r.2 || s.2)
    | none =>
      let s := replaceScanF tag f n rest
      (c :: s.1, s.2)

/-- One full `htmlContent.replace(tagRegex, callback)` pass. -/
def runPassWith (tag : Str) (f : Str → Str → Str → Str → Str × Bool)
    (text : Str) : Str × Bool :=
  replaceScanF tag f text.length text

/-- One pass of `processHtmlFile` for a given tag kind. -/
def runPass (assetsDir : Str) (assets : AssetFS) (tag : Str) (text : Str) : Str × Bool :=
  runPassWith tag (rewriteTag assetsDir assets tag) text

/-- The pure core of `processHtmlFile`: the img, video and source passes in
sequence, each on the output of the previous one, together with the final
`modified` flag. -/
def transformContent (assetsDir : Str) (assets : AssetFS) (text : Str) : Str × Bool :=
  let r1 := runPass assetsDir assets "img".data text
  let r2 := runPass assetsDir assets "video".data r1.1
  let r3 := runPass assetsDir assets "source".data r2.1
  (r3.1, r1.2 || r2.2 || r3.2)

/-- The `.backup` filename suffix. -/
def backupSuffix : Str := ".backup".data

/-- `processHtmlFile(htmlFilePath)` acting on the HTML filesystem: read the
file (a failed read is caught and leaves the filesystem unchanged), transform,
and if modified, first create `<file>.backup` unless it already exists, then
overwrite the file. -/
def processHtmlFile (assetsDir : Str) (assets : AssetFS) (fs : TextFS) (p : Str) : TextFS :=
  match fsLookup fs p with
  | none => fs
  | some content =>
    let r := transformContent assetsDir assets content
    if r.2 then
      let bp := p ++ backupSuffix
      let fs1 := if (fsLookup fs bp).isSome then fs else fsWrite fs bp content
      fsWrite fs1 p r.1
    else fs

/-- `findHtmlFiles()`: the files of the working directory whose names end in
`.html`, in listing order. -/
def findHtmlFiles (fs : TextFS) : List Str :=
  (fs.map Prod.fst).filter (fun q => strEndsWith ".html".data q)

/-- `listAvailableImages()`: names in the assets directory whose lowercased
extension is supported. -/
def listAvailableImages (assets : AssetFS) : List Str :=
  (assets.map Prod.fst).filter (fun f => lowerStr (extname f) ∈ supportedExtensions)

/-- The `htmlFiles.forEach(htmlFile => this.processHtmlFile(htmlFile))` loop. -/
def processFiles (assetsDir : Str) (assets : AssetFS) (fs : TextFS) (files : List Str) : TextFS :=
  files.foldl (processHtmlFile assetsDir assets) fs

/-- The on-disk state seen by `run`: whether the assets directory exists, its
media files, and the HTML working directory (including any `.backup` files). -/
structure Disk where
  assetsExists : Bool
  assets : AssetFS
  html : TextFS

/-- `run()`: abort if the assets directory is missing, if it holds no file
with a supported extension, or if no `.html` file is found; otherwise process
each HTML file in listing order. -/
def run (assetsDir : Str) (d : Disk) : Disk :=
  if !d.assetsExists then d
  else if listAvailableImages d.assets = [] then d
  else if findHtmlFiles d.html = [] then d
  else { d with html := processFiles assetsDir d.assets d.html (findHtmlFiles d.html) }

/-- The body of the `restore()` loop for one HTML file: if a sibling backup
exists, copy it over the original.  `fail p = true` models a `copyFileSync`
call that throws; the exception is caught and the loop continues. -/
def restoreFileF (fail : Str → Bool) (fs : TextFS) (p : Str) : TextFS :=
  match fsLookup fs (p ++ backupSuffix) with
  | some b => if fail p then fs else fsWrite fs p b
  | none => fs

/-- `restore()` over an explicit file list. -/
def restoreF (fail : Str → Bool) (fs : TextFS) (files : List Str) : TextFS :=
  files.foldl (restoreFileF fail) fs

/-- `restore()` with no I/O failures: restore every found HTML file from its
backup. -/
def restoreAll (fs : TextFS) : TextFS :=
  restoreF (fun _ => false) fs (findHtmlFiles fs)

/-- The conversion over the whole working directory (the mutation performed by
a non-aborting `run`). -/
def convertAll (assetsDir : Str) (assets : AssetFS) (fs : TextFS) : TextFS :=
  processFiles assetsDir assets fs (findHtmlFiles fs)

/-! ## Filesystem lemmas -/

theorem fsLookup_fsWrite_self {α : Type} (fs : List (Str × α)) (p : Str) (v : α) :
    fsLookup (fsWrite fs p v) p = some v := by
  induction fs with
  | nil => simp [fsWrite, fsLookup]
  | cons hd tl ih =>
    obtain ⟨q, w⟩ := hd
    by_cases h : q = p <;> simp [fsWrite, fsLookup, h, ih]

theorem fsLookup_fsWrite_ne {α : Type} (fs : List (Str × α)) (p : Str) (v : α)
    (q : Str) (h : q ≠ p) : fsLookup (fsWrite fs p v) q = fsLookup fs q := by
  induction fs with
  | nil => simp [fsWrite, fsLookup, Ne.symm h]
  | cons hd tl ih =>
    obtain ⟨k, w⟩ := hd
    by_cases hk : k = p
    · subst hk
      simp [fsWrite, fsLookup, Ne.symm h]
    · simp [fsWrite, fsLookup, hk, ih]

theorem fsWrite_map_fst_of_lookup {α : Type} (fs : List (Str × α)) (p : Str) (v : α)
    (c : α) (h : fsLookup fs p = some c) :
    (fsWrite fs p v).map Prod.fst = fs.map Prod.fst := by
  induction fs with
  | nil => simp [fsLookup] at h
  | cons hd tl ih =>
    obtain ⟨k, w⟩ := hd
    by_cases hk : k = p
    · subst hk; simp [fsWrite]
    · simp only [fsLookup, if_neg hk] at h
      simp [fsWrite, hk, ih h]

theorem fsWrite_map_fst_of_none {α : Type} (fs : List (Str × α)) (p : Str) (v : α)
    (h : fsLookup fs p = none) :
    (fsWrite fs p v).map Prod.fst = fs.map Prod.fst ++ [p] := by
  induction fs with
  | nil => simp [fsWrite]
  | cons hd tl ih =>
    obtain ⟨k, w⟩ := hd
    by_cases hk : k = p
    · subst hk; simp [fsLookup] at h
    · simp only [fsLookup, if_neg hk] at h
      simp [fsWrite, hk, ih h]

theorem fsLookup_eq_none_iff {α : Type} (fs : List (Str × α)) (p : Str) :
    fsLookup fs p = none ↔ p ∉ fs.map Prod.fst := by
  induction fs with
  | nil => simp [fsLookup]
  | cons hd tl ih =>
    obtain ⟨k, w⟩ := hd
    by_cases hk : k = p
    · subst hk
      simp only [fsLookup, if_pos rfl, List.map_cons, List.mem_cons]
      constructor
      · intro h; cases h
      · intro h; exact absurd (Or.inl trivial) h
    · simp only [fsLookup, if_neg hk, List.map_cons, List.mem_cons]
      rw [ih]
      constructor
      · intro h hm
        rcases hm with rfl | hm
        · exact hk rfl
        · exact h hm
      · intro h hm
        exact h (Or.inr hm)

/-! ## Suffix lemmas (`.html` names are never `.backup` names) -/

theorem strStartsWith_cons {a : Char} {as s : Str}
    (h : strStartsWith (a :: as) s = true) : ∃ cs, s = a :: cs := by
  cases s with
  | nil => simp [strStartsWith] at h
  | cons c cs =>
    simp only [strStartsWith, Bool.and_eq_true, decide_eq_true_eq] at h
    exact ⟨cs, by rw [h.1]⟩

theorem strStartsWith_append_self (a x : Str) : strStartsWith a (a ++ x) = true := by
  induction a with
  | nil => simp [strStartsWith]
  | cons c cs ih => simp [strStartsWith, ih]

theorem strEndsWith_append_self (p suf : Str) : strEndsWith suf (p ++ suf) = true := by
  unfold strEndsWith
  rw [List.reverse_append]
  exact strStartsWith_append_self suf.reverse p.reverse

theorem not_html_and_backup (p : Str) :
    strEndsWith ".html".data p = true → strEndsWith ".backup".data p = true → False := by
  intro h1 h2
  unfold strEndsWith at h1 h2
  obtain ⟨cs1, e1⟩ :=
    strStartsWith_cons (show strStartsWith ('l' :: ['m', 't', 'h', '.']) p.reverse = true by
      simpa using h1)
  obtain ⟨cs2, e2⟩ :=
    strStartsWith_cons
      (show strStartsWith ('p' :: ['u', 'k', 'c', 'a', 'b', '.']) p.reverse = true by
        simpa using h2)
  rw [e1] at e2
  simp at e2

theorem appended_backup_ne_html (p q : Str)
    (hp : strEndsWith ".html".data p = true) : p ≠ q ++ backupSuffix := by
  intro h
  exact not_html_and_backup p hp (h ▸ strEndsWith_append_self q backupSuffix)

theorem ne_self_append_backup (p : Str) : p ≠ p ++ backupSuffix := by
  intro h
  have := congrArg List.length h
  simp [backupSuffix] at this

theorem backup_append_inj {p q : Str} (h : p ++ backupSuffix = q ++ backupSuffix) :
    p = q := by
  have := congrArg List.reverse h
  simp only [List.reverse_append] at this
  have := List.append_cancel_left this
  simpa using congrArg List.reverse this

/-! ## Trim, prefix and resolver lemmas (claim C4) -/

theorem trimJs_prefixed (pre x : Str) (hh : pre.dropWhile isJsWs = pre)
    (ht : pre.reverse.dropWhile isJsWs = pre.reverse) (hne : pre ≠ []) :
    trimJs (pre ++ x) = pre ++ (x.reverse.dropWhile isJsWs).reverse := by
  unfold trimJs
  rw [List.dropWhile_append, hh]
  have hE : pre.isEmpty = false := by
    cases pre with
    | nil => exact absurd rfl hne
    | cons a l => rfl
  simp only [hE, Bool.false_eq_true, if_false]
  rw [List.reverse_append, List.dropWhile_append]
  by_cases hxe : (x.reverse.dropWhile isJsWs).isEmpty = true
  · have hnil : x.reverse.dropWhile isJsWs = [] := by
      simpa using hxe
    simp [hxe, ht, hnil]
  · simp only [hxe, Bool.false_eq_true, if_false]
    rw [List.reverse_append, List.reverse_reverse]

theorem replaceFirst_strips (pat s : Str) (h : strStartsWith pat s = true) :
    replaceFirst pat s = s.drop pat.length := by
  cases s with
  | nil => simp [replaceFirst]
  | cons c cs => simp [replaceFirst, h]

/-- Unfolding of `resolveImagePath` with its `let` reduced away. -/
theorem resolveImagePath_eq (ad s : Str) :
    resolveImagePath ad s =
      if strStartsWith "./assets/".data (trimJs s) = true then
        pathJoin ad (replaceFirst "./assets/".data (trimJs s))
      else if strStartsWith "../assets/".data (trimJs s) = true then
        pathJoin ad (replaceFirst "../assets/".data (trimJs s))
      else if strStartsWith "assets/".data (trimJs s) = true then
        pathJoin ad (replaceFirst "assets/".data (trimJs s))
      else pathJoin ad (basenameP (trimJs s)) := rfl

/-- The three resolver branches on a right-trimmed remainder. -/
theorem resolveImagePath_prefix_cases (ad x : Str) :
    resolveImagePath ad ("./assets/".data ++ x) =
      pathJoin ad ((x.reverse.dropWhile isJsWs).reverse) ∧
    resolveImagePath ad ("../assets/".data ++ x) =
      pathJoin ad ((x.reverse.dropWhile isJsWs).reverse) ∧
    resolveImagePath ad ("assets/".data ++ x) =
      pathJoin ad ((x.reverse.dropWhile isJsWs).reverse) := by
  have t1 := trimJs_prefixed "./assets/".data x (by decide) (by decide) (by decide)
  have t2 := trimJs_prefixed "../assets/".data x (by decide) (by decide) (by decide)
  have t3 := trimJs_prefixed "assets/".data x (by decide) (by decide) (by decide)
  set rx := (x.reverse.dropWhile isJsWs).reverse with hrx
  refine ⟨?_, ?_, ?_⟩
  · rw [resolveImagePath_eq, t1, strStartsWith_append_self,
      replaceFirst_strips _ _ (strStartsWith_append_self _ _)]
    simp [List.drop_left]
  · have n1 : strStartsWith "./assets/".data ("../assets/".data ++ rx) = false := rfl
    rw [resolveImagePath_eq, t2, n1, strStartsWith_append_self,
      replaceFirst_strips _ _ (strStartsWith_append_self _ _)]
    simp [List.drop_left]
  · have n2 : strStartsWith "./assets/".data ("assets/".data ++ rx) = false := rfl
    have n3 : strStartsWith "../assets/".data ("assets/".data ++ rx) = false := rfl
    rw [resolveImagePath_eq, t3, n2, n3, strStartsWith_append_self,
      replaceFirst_strips _ _ (strStartsWith_append_self _ _)]
    simp [List.drop_left]

/-! ## Claim C4 — path resolution is purely syntactic -/

/-- C4: (a) for every `x`, the three spellings `./assets/x`, `../assets/x` and
`assets/x` resolve to the identical path; (b) when `x` carries no trailing
whitespace that path is exactly the join of the assets directory with `x`;
(c) any other `src` (one whose trimmed form matches none of the three
prefixes) resolves to the join of the assets directory with the base filename
of the trimmed `src`, discarding any directory part.  `resolveImagePath` takes
no filesystem argument: resolution never checks existence. -/
theorem resolver_maps_assets_prefixes_and_basename (ad : Str) :
    (∀ x : Str,
      resolveImagePath ad ("./assets/".data ++ x) =
        resolveImagePath ad ("../assets/".data ++ x) ∧
      resolveImagePath ad ("assets/".data ++ x) =
        resolveImagePath ad ("./assets/".data ++ x)) ∧
    (∀ x : Str, x.reverse.dropWhile isJsWs = x.reverse →
      resolveImagePath ad ("./assets/".data ++ x) = pathJoin ad x) ∧
    (∀ src : Str,
      strStartsWith "./assets/".data (trimJs src) = false →
      strStartsWith "../assets/".data (trimJs src) = false →
      strStartsWith "assets/".data (trimJs src) = false →
      resolveImagePath ad src = pathJoin ad (basenameP (trimJs src))) := by
  refine ⟨?_, ?_, ?_⟩
  · intro x
    obtain ⟨e1, e2, e3⟩ := resolveImagePath_prefix_cases ad x
    exact ⟨e1.trans e2.symm, e3.trans e1.symm⟩
  · intro x hx
    obtain ⟨e1, _, _⟩ := resolveImagePath_prefix_cases ad x
    rw [e1, hx, List.reverse_reverse]
  · intro src h1 h2 h3
    rw [resolveImagePath_eq, h1, h2, h3]
    simp

/-- Witness for C4: `./assets/x.png` resolves to the join with `x.png`, and a
nested `sub/dir/x.png` resolves by basename only. -/
theorem resolver_maps_assets_prefixes_and_basename_witness :
    resolveImagePath "/a".data ("./assets/".data ++ "x.png".data) =
      pathJoin "/a".data "x.png".data ∧
    resolveImagePath "/a".data "sub/dir/x.png".data =
      pathJoin "/a".data (basenameP (trimJs "sub/dir/x.png".data)) :=
  ⟨(resolver_maps_assets_prefixes_and_basename "/a".data).2.1 "x.png".data (by decide),
   (resolver_maps_assets_prefixes_and_basename "/a".data).2.2 "sub/dir/x.png".data
     (by decide) (by decide) (by decide)⟩

/-! ## Base64 and MIME lemmas -/

theorem b64Char_ne_crlf (n : Nat) : b64Char n ≠ '\n' ∧ b64Char n ≠ '\r' := by
  by_cases h : n < 64
  · revert h
    have : ∀ m < 64, b64Char m ≠ '\n' ∧ b64Char m ≠ '\r' := by decide
    exact this n
  · have hlen : b64Alphabet.length ≤ n := by
      have : b64Alphabet.length = 64 := by decide
      omega
    unfold b64Char
    rw [List.getD_eq_default _ _ hlen]
    decide

theorem base64Encode_no_crlf : ∀ bs : List Nat, ∀ c ∈ base64Encode bs, c ≠ '\n' ∧ c ≠ '\r'
  | [] => by simp [base64Encode]
  | [b1] => by
    simp only [base64Encode, List.mem_cons, List.not_mem_nil, or_false]
    rintro c (rfl | rfl | rfl | rfl)
    · exact b64Char_ne_crlf _
    · exact b64Char_ne_crlf _
    · decide
    · decide
  | [b1, b2] => by
    simp only [base64Encode, List.mem_cons, List.not_mem_nil, or_false]
    rintro c (rfl | rfl | rfl | rfl)
    · exact b64Char_ne_crlf _
    · exact b64Char_ne_crlf _
    · exact b64Char_ne_crlf _
    · decide
  | b1 :: b2 :: b3 :: rest => by
    simp only [base64Encode, List.mem_cons]
    rintro c (rfl | rfl | rfl | rfl | hc)
    · exact b64Char_ne_crlf _
    · exact b64Char_ne_crlf _
    · exact b64Char_ne_crlf _
    · exact b64Char_ne_crlf _
    · exact base64Encode_no_crlf rest c hc

theorem mimeFromExt_mem (e : Str) :
    mimeFromExt e ∈ ["image/gif".data, "image/webp".data, "image/png".data,
      "image/jpeg".data, "image/svg+xml".data, "image/bmp".data, "video/mp4".data] := by
  unfold mimeFromExt
  split_ifs <;> simp

theorem mimeFromExt_no_crlf (e : Str) : ∀ c ∈ mimeFromExt e, c ≠ '\n' ∧ c ≠ '\r' := by
  intro c hc
  have hmem := mimeFromExt_mem e
  simp only [List.mem_cons, List.not_mem_nil, or_false] at hmem
  have h1 : ∀ x ∈ "image/gif".data, x ≠ '\n' ∧ x ≠ '\r' := by decide
  have h2 : ∀ x ∈ "image/webp".data, x ≠ '\n' ∧ x ≠ '\r' := by decide
  have h3 : ∀ x ∈ "image/png".data, x ≠ '\n' ∧ x ≠ '\r' := by decide
  have h4 : ∀ x ∈ "image/jpeg".data, x ≠ '\n' ∧ x ≠ '\r' := by decide
  have h5 : ∀ x ∈ "image/svg+xml".data, x ≠ '\n' ∧ x ≠ '\r' := by decide
  have h6 : ∀ x ∈ "image/bmp".data, x ≠ '\n' ∧ x ≠ '\r' := by decide
  have h7 : ∀ x ∈ "video/mp4".data, x ≠ '\n' ∧ x ≠ '\r' := by decide
  rcases hmem with h | h | h | h | h | h | h <;> rw [h] at hc
  · exact h1 c hc
  · exact h2 c hc
  · exact h3 c hc
  · exact h4 c hc
  · exact h5 c hc
  · exact h6 c hc
  · exact h7 c hc

theorem mimeFromExt_fallback (e : Str) (h : e ∉ supportedExtensions) :
    mimeFromExt e = "image/png".data := by
  simp only [supportedExtensions, List.mem_cons, List.not_mem_nil, or_false, not_or] at h
  obtain ⟨h1, h2, h3, h4, h5, h6, h7, h8⟩ := h
  unfold mimeFromExt
  simp [h1, h2, h3, h4, h5, h6, h7, h8]

/-! ## Matcher lemmas -/

theorem matchSrcTail_src_ne_nil {s src g3 : Str} {n : Nat}
    (h : matchSrcTail s = some (src, g3, n)) : src ≠ [] := by
  unfold matchSrcTail at h
  split at h
  · simp at h
  · split at h
    · split at h
      · simp at h
      · split at h
        · dsimp only at h
          split at h
          · simp at h
          · split at h
            · simp at h
            · split at h
              · split at h
                · simp only [Option.some.injEq, Prod.mk.injEq] at h
                  obtain ⟨rfl, -, -⟩ := h
                  assumption
                · simp at h
              · simp at h
        · simp at h
    · simp at h

theorem findSrcSplit_src_ne_nil {rest g1 src g3 : Str} {n : Nat} :
    ∀ k, findSrcSplit rest k = some (g1, src, g3, n) → src ≠ []
  | 0, h => by
    unfold findSrcSplit at h
    split at h
    · next heq =>
      simp only [Option.some.injEq, Prod.mk.injEq] at h
      obtain ⟨-, rfl, -, -⟩ := h
      exact matchSrcTail_src_ne_nil heq
    · simp at h
  | k + 1, h => by
    unfold findSrcSplit at h
    split at h
    · next heq =>
      simp only [Option.some.injEq, Prod.mk.injEq] at h
      obtain ⟨-, rfl, -, -⟩ := h
      exact matchSrcTail_src_ne_nil heq
    · exact findSrcSplit_src_ne_nil k h

theorem matchAtTag_src_ne_nil {tag s g1 src g3 : Str} {len : Nat}
    (h : matchAtTag tag s = some (g1, src, g3, len)) : src ≠ [] := by
  unfold matchAtTag at h
  split at h
  · dsimp only at h
    split at h
    · next heq =>
      simp only [Option.some.injEq, Prod.mk.injEq] at h
      obtain ⟨-, rfl, -, -⟩ := h
      exact findSrcSplit_src_ne_nil _ heq
    · simp at h
  · simp at h

/-! ## Rewrite-callback case lemmas -/

theorem rewriteTag_data_guard (ad : Str) (assets : AssetFS) (tag m g1 src g3 : Str)
    (h : strStartsWith "data:".data src = true) :
    rewriteTag ad assets tag m g1 src g3 = (m, false) := by
  unfold rewriteTag
  simp [h]

theorem rewriteTag_soft_failure (ad : Str) (assets : AssetFS) (tag m g1 src g3 : Str)
    (hd : strStartsWith "data:".data src = false)
    (h : lowerStr (extname (resolveImagePath ad src)) ∉ supportedExtensions ∨
      fsLookup assets (resolveImagePath ad src) = none) :
    rewriteTag ad assets tag m g1 src g3 = (m, false) := by
  unfold rewriteTag
  simp only [hd, Bool.false_eq_true, if_false]
  rcases h with h | h
  · rw [if_neg h]
  · by_cases hs : lowerStr (extname (resolveImagePath ad src)) ∈ supportedExtensions
    · rw [if_pos hs]
      have hnone : imageToBase64 assets (resolveImagePath ad src) = none := by
        unfold imageToBase64
        rw [h]
      rw [hnone]
    · rw [if_neg hs]

theorem rewriteTag_success (ad : Str) (assets : AssetFS) (tag m g1 src g3 uri : Str)
    (hd : strStartsWith "data:".data src = false)
    (hs : lowerStr (extname (resolveImagePath ad src)) ∈ supportedExtensions)
    (he : imageToBase64 assets (resolveImagePath ad src) = some uri) :
    rewriteTag ad assets tag m g1 src g3 =
      ('<' :: tag ++ g1 ++ " src=".data ++ '"' :: uri ++ '"' :: g3 ++ ">".data, true) := by
  unfold rewriteTag
  simp only [hd, Bool.false_eq_true, if_false]
  rw [if_pos hs, he]

/-! ## Claim C7 — per-tag soft failures never alter the tag -/

/-- C7: when a matched tag's src is not already a data URI but its resolved
path has an unsupported extension or names a missing file, the callback
returns the matched text unchanged with no `modified` contribution; scanning
continues, so later tags in the same file are still converted (shown on a
file with one missing and one convertible reference). -/
theorem soft_failures_never_alter_tag (ad : Str) (assets : AssetFS) :
    (∀ tag m g1 src g3,
      strStartsWith "data:".data src = false →
      (lowerStr (extname (resolveImagePath ad src)) ∉ supportedExtensions ∨
        fsLookup assets (resolveImagePath ad src) = none) →
      rewriteTag ad assets tag m g1 src g3 = (m, false)) ∧
    runPass "/a".data [("/a/i.png".data, [2])] "img".data
        ("<img src=".data ++ sq :: "missing.png".data ++ sq :: "> <img src=".data ++
          sq :: "i.png".data ++ sq :: ">".data) =
      ("<img src=".data ++ sq :: "missing.png".data ++ sq ::
          "> <img src=\"data:image/png;base64,Ag==\">".data, true) := by
  refine ⟨fun tag m g1 src g3 hd h => rewriteTag_soft_failure ad assets tag m g1 src g3 hd h, ?_⟩
  decide

/-- Witness for C7: an unsupported `.txt` reference leaves the matched text
untouched. -/
theorem soft_failures_never_alter_tag_witness :
    rewriteTag "/a".data [] "img".data "M".data [] "nope.txt".data [] = ("M".data, false) :=
  (soft_failures_never_alter_tag "/a".data []).1 "img".data "M".data [] "nope.txt".data []
    (by decide) (Or.inl (by decide))

/-! ## Claim C9 — an empty src value never matches -/

/-- C9: every successful match of the shared tag regex captures a nonempty
src group (the `[^"']+` class requires at least one character), and a file
consisting of an `<img>`, `<video>` or `<source>` tag with `src=""` or
`src=''` is left untouched by `processHtmlFile` — no backup, no write — even
with a convertible asset present. -/
theorem empty_src_value_never_matched :
    (∀ tag s g1 src g3 len, matchAtTag tag s = some (g1, src, g3, len) → src ≠ []) ∧
    (∀ t ∈ ["<img src=\"\">".data,
            "<img src=".data ++ sq :: sq :: ">".data,
            "<video src=\"\">".data,
            "<video src=".data ++ sq :: sq :: ">".data,
            "<source src=\"\">".data,
            "<source src=".data ++ sq :: sq :: ">".data],
      processHtmlFile "/a".data [("/a/i.png".data, [2])] [("x.html".data, t)] "x.html".data =
        [("x.html".data, t)]) :=
  ⟨fun _ _ _ _ _ _ h => matchAtTag_src_ne_nil h, by decide⟩

/-- Witness for C9 at a concrete successful match: the captured src group of
the match of `<img src='i.png'>` is nonempty. -/
theorem empty_src_value_never_matched_witness : ("i.png".data : Str) ≠ [] :=
  empty_src_value_never_matched.1 "img".data
    ("<img src=".data ++ sq :: "i.png".data ++ sq :: ">".data) [] "i.png".data [] 17
    (by decide)

/-! ## Claim C1 — what the rewrite preserves (corrected) -/

/-- Counterexample to C1 as stated: a single-quoted `src='i.png'` does not
keep its quoting — the pass rewrites the tag with double quotes. -/
theorem tag_rewriter_quoting_counterexample :
    (runPass "/a".data [("/a/i.png".data, [2])] "img".data
        ("<img src=".data ++ sq :: "i.png".data ++ sq :: ">".data)).1 =
      "<img src=\"data:image/png;base64,Ag==\">".data ∧
    (runPass "/a".data [("/a/i.png".data, [2])] "img".data
        ("<img src=".data ++ sq :: "i.png".data ++ sq :: ">".data)).1 ≠
      "<img src=".data ++ sq :: "data:image/png;base64,Ag==".data ++ sq :: ">".data :=
  ⟨by decide, by decide⟩

/-- C1 (amended): a successful rewrite produces exactly
`<tag${beforeSrc} src="${uri}"${afterSrc}>`, so both captured attribute
groups — hence every other attribute and the attribute ordering — are
preserved verbatim, and the scan copies all text outside matches character
for character; but the src value's quote delimiters are normalised to double
quotes, the single whitespace character before `src` to a space, and the tag
literal to lowercase. -/
theorem tag_rewriter_amended (ad : Str) (assets : AssetFS) (tag : Str) :
    (∀ m g1 src g3 uri,
      strStartsWith "data:".data src = false →
      lowerStr (extname (resolveImagePath ad src)) ∈ supportedExtensions →
      imageToBase64 assets (resolveImagePath ad src) = some uri →
      rewriteTag ad assets tag m g1 src g3 =
        ('<' :: tag ++ g1 ++ " src=".data ++ '"' :: uri ++ '"' :: g3 ++ ">".data, true)) ∧
    (∀ f n c rest, matchAtTag tag (c :: rest) = none →
      replaceScanF tag f (n + 1) (c :: rest) =
        (c :: (replaceScanF tag f n rest).1, (replaceScanF tag f n rest).2)) ∧
    (∀ (f : Str → Str → Str → Str → Str × Bool) n c rest g1 src g3 len,
      matchAtTag tag (c :: rest) = some (g1, src, g3, len) →
      replaceScanF tag f (n + 1) (c :: rest) =
        ((f ((c :: rest).take len) g1 src g3).1 ++
            (replaceScanF tag f n ((c :: rest).drop len)).1,
          (f ((c :: rest).take len) g1 src g3).2 ||
            (replaceScanF tag f n ((c :: rest).drop len)).2)) := by
  refine ⟨fun m g1 src g3 uri hd hs he =>
    rewriteTag_success ad assets tag m g1 src g3 uri hd hs he, ?_, ?_⟩
  · intro f n c rest h
    simp only [replaceScanF, h]
  · intro f n c rest g1 src g3 len h
    simp only [replaceScanF, h]

/-- Witness for the amended C1: a rewrite with attributes on both sides of
`src` keeps them verbatim around the normalised `src="..."`. -/
theorem tag_rewriter_amended_witness :
    rewriteTag "/a".data [("/a/i.png".data, [2])] "img".data
        "M".data " a=1".data "i.png".data " b=2".data =
      ('<' :: "img".data ++ " a=1".data ++ " src=".data ++
        '"' :: "data:image/png;base64,Ag==".data ++ '"' :: " b=2".data ++ ">".data, true) :=
  (tag_rewriter_amended "/a".data [("/a/i.png".data, [2])] "img".data).1
    "M".data " a=1".data "i.png".data " b=2".data "data:image/png;base64,Ag==".data
    (by decide) (by decide) (by decide)

/-! ## No-substitution runs are the identity (claims C2, C5) -/

theorem rewriteTag_not_modified (ad : Str) (assets : AssetFS) (tag m g1 src g3 : Str)
    (h : (rewriteTag ad assets tag m g1 src g3).2 = false) :
    (rewriteTag ad assets tag m g1 src g3).1 = m := by
  by_cases hd : strStartsWith "data:".data src = true
  · rw [rewriteTag_data_guard ad assets tag m g1 src g3 hd]
  · have hd2 : strStartsWith "data:".data src = false := by
      cases hB : strStartsWith "data:".data src
      · rfl
      · exact absurd hB hd
    by_cases hs : lowerStr (extname (resolveImagePath ad src)) ∈ supportedExtensions
    · cases hL : fsLookup assets (resolveImagePath ad src) with
      | none => rw [rewriteTag_soft_failure ad assets tag m g1 src g3 hd2 (Or.inr hL)]
      | some bytes =>
        have hE : imageToBase64 assets (resolveImagePath ad src) =
            some ("data:".data ++ mimeFromExt (lowerStr (extname (resolveImagePath ad src))) ++
              ";base64,".data ++ base64Encode bytes) := by
          unfold imageToBase64
          rw [hL]
        rw [rewriteTag_success ad assets tag m g1 src g3 _ hd2 hs hE] at h
        simp at h
    · rw [rewriteTag_soft_failure ad assets tag m g1 src g3 hd2 (Or.inl hs)]

theorem replaceScanF_unmodified (tag : Str) (f : Str → Str → Str → Str → Str × Bool)
    (hf : ∀ m g1 src g3, (f m g1 src g3).2 = false → (f m g1 src g3).1 = m) :
    ∀ n text, (replaceScanF tag f n text).2 = false →
      (replaceScanF tag f n text).1 = text := by
  intro n
  induction n with
  | zero => intro text _; rfl
  | succ n ih =>
    intro text h
    cases text with
    | nil => rfl
    | cons c rest =>
      cases hm : matchAtTag tag (c :: rest) with
      | none =>
        simp only [replaceScanF, hm] at h ⊢
        rw [ih rest h]
      | some r =>
        obtain ⟨g1, src, g3, len⟩ := r
        simp only [replaceScanF, hm] at h ⊢
        rw [Bool.or_eq_false_iff] at h
        obtain ⟨h1, h2⟩ := h
        rw [hf _ _ _ _ h1, ih _ h2, List.take_append_drop]

theorem runPass_unmodified (ad : Str) (assets : AssetFS) (tag text : Str)
    (h : (runPass ad assets tag text).2 = false) :
    (runPass ad assets tag text).1 = text :=
  replaceScanF_unmodified tag _
    (fun m g1 src g3 hm => rewriteTag_not_modified ad assets tag m g1 src g3 hm)
    text.length text h

theorem transformContent_unmodified (ad : Str) (assets : AssetFS) (text : Str)
    (h : (transformContent ad assets text).2 = false) :
    (transformContent ad assets text).1 = text := by
  unfold transformContent at h ⊢
  dsimp only at h ⊢
  rw [Bool.or_eq_false_iff, Bool.or_eq_false_iff] at h
  obtain ⟨⟨h1, h2⟩, h3⟩ := h
  have e2 := runPass_unmodified ad assets "video".data _ h2
  have e3 := runPass_unmodified ad assets "source".data _ h3
  rw [e3, e2, runPass_unmodified ad assets "img".data text h1]

theorem processHtmlFile_unmodified (ad : Str) (assets : AssetFS) (fs : TextFS)
    (p content : Str) (hr : fsLookup fs p = some content)
    (h : (transformContent ad assets content).2 = false) :
    processHtmlFile ad assets fs p = fs := by
  unfold processHtmlFile
  rw [hr]
  simp [h]

/-! ## Claim C2 — idempotence (corrected) -/

/-- Counterexample to C2 as stated: on
`<img src='v>w.png' src='i.png'>` with both assets present, the first run
converts `v>w.png` (the `>` inside the value confines the greedy group); the
second run then reaches the second `src` attribute — no longer blocked by a
`>` — and converts `i.png`, so the second full run on the directory produced
by the first run changes the HTML file again. -/
theorem converter_idempotence_counterexample :
    (run "/a".data
        (run "/a".data
          { assetsExists := true,
            assets := [("/a/v>w.png".data, [1]), ("/a/i.png".data, [2])],
            html := [("x.html".data,
              "<img src=".data ++ sq :: "v>w.png".data ++ sq :: " src=".data ++
                sq :: "i.png".data ++ sq :: ">".data)] })).html ≠
      (run "/a".data
        { assetsExists := true,
          assets := [("/a/v>w.png".data, [1]), ("/a/i.png".data, [2])],
          html := [("x.html".data,
            "<img src=".data ++ sq :: "v>w.png".data ++ sq :: " src=".data ++
              sq :: "i.png".data ++ sq :: ">".data)] }).html := by
  decide

/-- C2 (amended): every matched tag whose existing src value starts with
`data:` is returned unmodified, and a conversion pass that reports no
substitution leaves the text — and, through `processHtmlFile`, the filesystem
— byte-for-byte unchanged.  Full-directory idempotence, however, does not
hold in general: a second run may perform further substitutions (see the
counterexample). -/
theorem data_guard_and_unmodified_run_amended (ad : Str) (assets : AssetFS) :
    (∀ tag m g1 src g3, strStartsWith "data:".data src = true →
      rewriteTag ad assets tag m g1 src g3 = (m, false)) ∧
    (∀ text, (transformContent ad assets text).2 = false →
      (transformContent ad assets text).1 = text) ∧
    (∀ fs p content, fsLookup fs p = some content →
      (transformContent ad assets content).2 = false →
      processHtmlFile ad assets fs p = fs) :=
  ⟨fun tag m g1 src g3 h => rewriteTag_data_guard ad assets tag m g1 src g3 h,
   fun text h => transformContent_unmodified ad assets text h,
   fun fs p content hr h => processHtmlFile_unmodified ad assets fs p content hr h⟩

/-- Witness for the amended C2: a concrete already-converted tag is returned
unmodified, and a file with no convertible tag is left byte-identical. -/
theorem data_guard_and_unmodified_run_amended_witness :
    rewriteTag "/a".data [] "img".data "M".data [] "data:x".data [] = ("M".data, false) ∧
    processHtmlFile "/a".data [] [("x.html".data, "hello".data)] "x.html".data =
      [("x.html".data, "hello".data)] :=
  ⟨(data_guard_and_unmodified_run_amended "/a".data []).1 "img".data "M".data []
      "data:x".data [] (by decide),
   (data_guard_and_unmodified_run_amended "/a".data []).2.2
      [("x.html".data, "hello".data)] "x.html".data "hello".data (by decide) (by decide)⟩

/-! ## Claim C6 — the encoder's output format -/

/-- C6: for every existing asset file, the encoder yields exactly
`data:<mime>;base64,<payload>` where the MIME type is the fixed table entry
for the lowercased extension, the payload is unwrapped base64 of the file
bytes (no CR or LF anywhere in the URI), the eight table entries are as
listed, and any extension outside the table falls back to `image/png`. -/
theorem encoder_data_uri_format (assets : AssetFS) (p : Str) (bytes : List Nat)
    (h : fsLookup assets p = some bytes) :
    imageToBase64 assets p =
      some ("data:".data ++ mimeFromExt (lowerStr (extname p)) ++ ";base64,".data ++
        base64Encode bytes) ∧
    (∀ c ∈ ("data:".data ++ mimeFromExt (lowerStr (extname p)) ++ ";base64,".data ++
        base64Encode bytes), c ≠ '\n' ∧ c ≠ '\r') ∧
    mimeFromExt ".gif".data = "image/gif".data ∧
    mimeFromExt ".webp".data = "image/webp".data ∧
    mimeFromExt ".png".data = "image/png".data ∧
    mimeFromExt ".jpg".data = "image/jpeg".data ∧
    mimeFromExt ".jpeg".data = "image/jpeg".data ∧
    mimeFromExt ".svg".data = "image/svg+xml".data ∧
    mimeFromExt ".bmp".data = "image/bmp".data ∧
    mimeFromExt ".mp4".data = "video/mp4".data ∧
    (∀ e, e ∉ supportedExtensions → mimeFromExt e = "image/png".data) := by
  refine ⟨?_, ?_, by decide, by decide, by decide, by decide, by decide, by decide,
    by decide, by decide, mimeFromExt_fallback⟩
  · unfold imageToBase64
    rw [h]
  · intro c hc
    simp only [List.append_assoc, List.mem_append] at hc
    have hd : ∀ x ∈ "data:".data, x ≠ '\n' ∧ x ≠ '\r' := by decide
    have hb : ∀ x ∈ ";base64,".data, x ≠ '\n' ∧ x ≠ '\r' := by decide
    rcases hc with hc | hc | hc | hc
    · exact hd c hc
    · exact mimeFromExt_no_crlf _ c hc
    · exact hb c hc
    · exact base64Encode_no_crlf bytes c hc

/-- Witness for C6 at a concrete file: a one-byte `.PNG` (uppercase) asset
encodes to the expected `image/png` data URI. -/
theorem encoder_data_uri_format_witness :
    imageToBase64 [("/a/x.PNG".data, [0])] "/a/x.PNG".data =
      some "data:image/png;base64,AA==".data :=
  ((encoder_data_uri_format [("/a/x.PNG".data, [0])] "/a/x.PNG".data [0]
    (by decide)).1).trans (by decide)

/-! ## Claim C8 — hard failures abort the run before any mutation -/

/-- C8: when the assets directory is missing, or it holds no file with a
supported extension, or no `.html` file exists in the working directory, `run`
returns the disk unchanged — no HTML file is written and no backup created. -/
theorem run_aborts_early_without_mutation (assetsDir : Str) (d : Disk)
    (h : d.assetsExists = false ∨ listAvailableImages d.assets = [] ∨
      findHtmlFiles d.html = []) :
    run assetsDir d = d := by
  unfold run
  rcases h with h | h | h
  · simp [h]
  · by_cases hb : d.assetsExists
    · simp [hb, h]
    · simp [hb]
  · by_cases hb : d.assetsExists
    · by_cases ha : listAvailableImages d.assets = []
      · simp [hb, ha]
      · simp [hb, ha, h]
    · simp [hb]

/-- Witness for C8: a disk whose assets directory exists but contains only an
unsupported `.txt` file is returned untouched even though an HTML file with a
convertible tag is present. -/
theorem run_aborts_early_without_mutation_witness :
    run "/a".data
      { assetsExists := true,
        assets := [("/a/readme.txt".data, [1])],
        html := [("x.html".data, "<img src=\"i.png\">".data)] } =
      { assetsExists := true,
        assets := [("/a/readme.txt".data, [1])],
        html := [("x.html".data, "<img src=\"i.png\">".data)] } :=
  run_aborts_early_without_mutation "/a".data _ (Or.inr (Or.inl (by decide)))

/-! ## processHtmlFile frame lemmas -/

/-- `processHtmlFile` writes only to `p` itself and possibly `p ++ ".backup"`;
every other path is untouched. -/
theorem processHtmlFile_preserves_other (ad : Str) (assets : AssetFS) (fs : TextFS)
    (q r : Str) (h1 : r ≠ q) (h2 : r ≠ q ++ backupSuffix) :
    fsLookup (processHtmlFile ad assets fs q) r = fsLookup fs r := by
  unfold processHtmlFile
  cases hq : fsLookup fs q with
  | none => rfl
  | some content =>
    dsimp only
    by_cases hm : (transformContent ad assets content).2 = true
    · rw [if_pos hm]
      rw [fsLookup_fsWrite_ne _ _ _ _ h1]
      by_cases hb : (fsLookup fs (q ++ backupSuffix)).isSome = true
      · rw [if_pos hb]
      · rw [if_neg hb, fsLookup_fsWrite_ne _ _ _ _ h2]
    · rw [if_neg hm]

/-- The file's own backup, when it already exists, is never overwritten. -/
theorem processHtmlFile_preserves_own_backup (ad : Str) (assets : AssetFS) (fs : TextFS)
    (p b : Str) (hb : fsLookup fs (p ++ backupSuffix) = some b) :
    fsLookup (processHtmlFile ad assets fs p) (p ++ backupSuffix) = some b := by
  unfold processHtmlFile
  cases hq : fsLookup fs p with
  | none => exact hb
  | some content =>
    dsimp only
    by_cases hm : (transformContent ad assets content).2 = true
    · rw [if_pos hm, if_pos (by rw [hb]; rfl),
        fsLookup_fsWrite_ne _ _ _ _ (Ne.symm (ne_self_append_backup p))]
      exact hb
    · rw [if_neg hm]
      exact hb

/-- Processing any `.html` file preserves the content of every existing
`.backup` file. -/
theorem processHtmlFile_preserves_backup_files (ad : Str) (assets : AssetFS) (fs : TextFS)
    (q r b : Str) (hq : strEndsWith ".html".data q = true)
    (hr : strEndsWith ".backup".data r = true) (hb : fsLookup fs r = some b) :
    fsLookup (processHtmlFile ad assets fs q) r = some b := by
  by_cases hrq : r = q ++ backupSuffix
  · subst hrq
    exact processHtmlFile_preserves_own_backup ad assets fs q b hb
  · rw [processHtmlFile_preserves_other ad assets fs q r
      (fun e => not_html_and_backup q hq (e ▸ hr)) hrq]
    exact hb

/-- A backup appears at a previously backup-free path only when the file was
read, some pass modified it, and then the backup holds the pre-conversion
content. -/
theorem processHtmlFile_backup_only_on_modify (ad : Str) (assets : AssetFS) (fs : TextFS)
    (p b : Str) (hn : fsLookup fs (p ++ backupSuffix) = none)
    (hsome : fsLookup (processHtmlFile ad assets fs p) (p ++ backupSuffix) = some b) :
    ∃ content, fsLookup fs p = some content ∧
      (transformContent ad assets content).2 = true ∧ b = content := by
  unfold processHtmlFile at hsome
  cases hq : fsLookup fs p with
  | none =>
    rw [hq] at hsome
    rw [hn] at hsome
    cases hsome
  | some content =>
    rw [hq] at hsome
    dsimp only at hsome
    by_cases hm : (transformContent ad assets content).2 = true
    · rw [if_pos hm, if_neg (by rw [hn]; simp),
        fsLookup_fsWrite_ne _ _ _ _ (Ne.symm (ne_self_append_backup p)),
        fsLookup_fsWrite_self] at hsome
      exact ⟨content, rfl, hm, by injection hsome.symm⟩
    · rw [if_neg hm, hn] at hsome
      cases hsome

/-! ## findHtmlFiles and processFiles lemmas -/

theorem mem_findHtmlFiles_iff (fs : TextFS) (q : Str) :
    q ∈ findHtmlFiles fs ↔ q ∈ fs.map Prod.fst ∧ strEndsWith ".html".data q = true := by
  simp [findHtmlFiles, List.mem_filter]

theorem processFiles_preserves_backup_files (ad : Str) (assets : AssetFS) (r b : Str)
    (hr : strEndsWith ".backup".data r = true) :
    ∀ (files : List Str) (fs : TextFS),
      (∀ q ∈ files, strEndsWith ".html".data q = true) →
      fsLookup fs r = some b →
      fsLookup (processFiles ad assets fs files) r = some b
  | [], fs, _, hb => hb
  | f :: rest, fs, hall, hb => by
    have step := processHtmlFile_preserves_backup_files ad assets fs f r b
      (hall f (List.mem_cons_self f rest)) hr hb
    exact processFiles_preserves_backup_files ad assets r b hr rest
      (processHtmlFile ad assets fs f)
      (fun q hqmem => hall q (List.mem_cons_of_mem f hqmem)) step

/-! ## Claim C5 — first-conversion-wins backup invariant -/

/-- C5: a read failure or an unmodified transform leaves the filesystem
untouched (no write, no backup); an existing `<file>.backup` is never
overwritten by processing that file; a backup appears at a backup-free path
only when some pass modified the file, and then it holds the pre-conversion
content; and a whole `run` preserves every existing `.backup` file's
content. -/
theorem backup_first_conversion_wins (ad : Str) (assets : AssetFS) :
    (∀ fs p, fsLookup fs p = none → processHtmlFile ad assets fs p = fs) ∧
    (∀ fs p content, fsLookup fs p = some content →
      (transformContent ad assets content).2 = false →
      processHtmlFile ad assets fs p = fs) ∧
    (∀ fs p b, fsLookup fs (p ++ backupSuffix) = some b →
      fsLookup (processHtmlFile ad assets fs p) (p ++ backupSuffix) = some b) ∧
    (∀ fs p b, fsLookup fs (p ++ backupSuffix) = none →
      fsLookup (processHtmlFile ad assets fs p) (p ++ backupSuffix) = some b →
      ∃ content, fsLookup fs p = some content ∧
        (transformContent ad assets content).2 = true ∧ b = content) ∧
    (∀ (d : Disk) (r b : Str), strEndsWith ".backup".data r = true →
      fsLookup d.html r = some b → fsLookup (run ad d).html r = some b) := by
  refine ⟨?_, ?_, ?_, ?_, ?_⟩
  · intro fs p h
    unfold processHtmlFile
    rw [h]
  · exact fun fs p content hr h => processHtmlFile_unmodified ad assets fs p content hr h
  · exact fun fs p b hb => processHtmlFile_preserves_own_backup ad assets fs p b hb
  · exact fun fs p b hn hs => processHtmlFile_backup_only_on_modify ad assets fs p b hn hs
  · intro d r b hr hb
    unfold run
    cases hA : d.assetsExists with
    | false => simpa using hb
    | true =>
      simp only [Bool.not_true, Bool.false_eq_true, if_false]
      by_cases h2 : listAvailableImages d.assets = []
      · rw [if_pos h2]
        exact hb
      · rw [if_neg h2]
        by_cases h3 : findHtmlFiles d.html = []
        · rw [if_pos h3]
          exact hb
        · rw [if_neg h3]
          exact processFiles_preserves_backup_files ad d.assets r b hr
            (findHtmlFiles d.html) d.html
            (fun q hq => ((mem_findHtmlFiles_iff d.html q).mp hq).2) hb

/-- Witness for C5: a full `run` over a convertible file with a pre-existing
stale backup leaves the backup's bytes unchanged. -/
theorem backup_first_conversion_wins_witness :
    fsLookup
      (run "/a".data
        { assetsExists := true, assets := [("/a/i.png".data, [2])],
          html := [("x.html".data, "<img src=\"i.png\">".data),
                   ("x.html.backup".data, "old".data)] }).html
      "x.html.backup".data = some "old".data :=
  (backup_first_conversion_wins "/a".data [("/a/i.png".data, [2])]).2.2.2.2
    { assetsExists := true, assets := [("/a/i.png".data, [2])],
      html := [("x.html".data, "<img src=\"i.png\">".data),
               ("x.html.backup".data, "old".data)] }
    "x.html.backup".data "old".data (by decide) (by decide)

/-! ## Restore lemmas -/

theorem restoreF_cons (fail : Str → Bool) (fs : TextFS) (f : Str) (rest : List Str) :
    restoreF fail fs (f :: rest) = restoreF fail (restoreFileF fail fs f) rest := rfl

theorem processFiles_cons (ad : Str) (assets : AssetFS) (fs : TextFS) (f : Str)
    (rest : List Str) :
    processFiles ad assets fs (f :: rest) =
      processFiles ad assets (processHtmlFile ad assets fs f) rest := rfl

/-- One restore step writes only to its own file. -/
theorem restoreFileF_preserves_other (fail : Str → Bool) (fs : TextFS) (p r : Str)
    (h : r ≠ p) : fsLookup (restoreFileF fail fs p) r = fsLookup fs r := by
  unfold restoreFileF
  cases hB : fsLookup fs (p ++ backupSuffix) with
  | none => rfl
  | some b =>
    dsimp only
    by_cases hf : fail p = true
    · rw [if_pos hf]
    · rw [if_neg hf, fsLookup_fsWrite_ne _ _ _ _ h]

theorem restoreF_preserves_not_mem (fail : Str → Bool) :
    ∀ (files : List Str) (fs : TextFS) (r : Str), r ∉ files →
      fsLookup (restoreF fail fs files) r = fsLookup fs r
  | [], _, _, _ => rfl
  | f :: rest, fs, r, h => by
    have h1 : r ≠ f := fun e => h (e ▸ List.mem_cons_self f rest)
    have h2 : r ∉ rest := fun e => h (List.mem_cons_of_mem f e)
    rw [restoreF_cons, restoreF_preserves_not_mem fail rest _ r h2,
      restoreFileF_preserves_other fail fs f r h1]

/-- Restoring `.html` files never touches any `.backup` path. -/
theorem restoreF_preserves_backup_files (fail : Str → Bool) (r : Str)
    (hr : strEndsWith ".backup".data r = true) :
    ∀ (files : List Str) (fs : TextFS),
      (∀ q ∈ files, strEndsWith ".html".data q = true) →
      fsLookup (restoreF fail fs files) r = fsLookup fs r
  | [], _, _ => rfl
  | f :: rest, fs, hall => by
    have hf := hall f (List.mem_cons_self f rest)
    have h1 : r ≠ f := fun e => not_html_and_backup f hf (e ▸ hr)
    rw [restoreF_cons,
      restoreF_preserves_backup_files fail r hr rest _
        (fun q hq => hall q (List.mem_cons_of_mem f hq)),
      restoreFileF_preserves_other fail fs f r h1]

/-- A file whose backup exists and whose copy does not fail ends up holding
the backup's content, regardless of failures on other files. -/
theorem restoreF_restores (fail : Str → Bool) (p b : Str) (hf : fail p = false) :
    ∀ (files : List Str) (fs : TextFS),
      (∀ q ∈ files, strEndsWith ".html".data q = true) →
      fsLookup fs (p ++ backupSuffix) = some b →
      (p ∈ files ∨ fsLookup fs p = some b) →
      fsLookup (restoreF fail fs files) p = some b
  | [], fs, _, _, hdisj => by
    rcases hdisj with h | h
    · exact absurd h (List.not_mem_nil p)
    · exact h
  | f :: rest, fs, hall, hB, hdisj => by
    have hfhtml := hall f (List.mem_cons_self f rest)
    have hBne : p ++ backupSuffix ≠ f :=
      fun e => not_html_and_backup f hfhtml (e ▸ strEndsWith_append_self p backupSuffix)
    have hB1 : fsLookup (restoreFileF fail fs f) (p ++ backupSuffix) = some b := by
      rw [restoreFileF_preserves_other fail fs f _ hBne]
      exact hB
    rw [restoreF_cons]
    apply restoreF_restores fail p b hf rest _
      (fun q hq => hall q (List.mem_cons_of_mem f hq)) hB1
    by_cases hpf : p = f
    · subst hpf
      right
      have e : restoreFileF fail fs p = fsWrite fs p b := by
        unfold restoreFileF
        rw [hB]
        simp [hf]
      rw [e, fsLookup_fsWrite_self]
    · rcases hdisj with hmem | hlook
      · exact Or.inl ((List.mem_cons.mp hmem).resolve_left hpf)
      · right
        rw [restoreFileF_preserves_other fail fs f p hpf]
        exact hlook

/-- A file with no backup is skipped by every restore step. -/
theorem restoreF_no_backup_skips (fail : Str → Bool) (p : Str) :
    ∀ (files : List Str) (fs : TextFS),
      (∀ q ∈ files, strEndsWith ".html".data q = true) →
      fsLookup fs (p ++ backupSuffix) = none →
      fsLookup (restoreF fail fs files) p = fsLookup fs p
  | [], _, _, _ => rfl
  | f :: rest, fs, hall, hn => by
    have hfhtml := hall f (List.mem_cons_self f rest)
    have hBne : p ++ backupSuffix ≠ f :=
      fun e => not_html_and_backup f hfhtml (e ▸ strEndsWith_append_self p backupSuffix)
    have hn1 : fsLookup (restoreFileF fail fs f) (p ++ backupSuffix) = none := by
      rw [restoreFileF_preserves_other fail fs f _ hBne]
      exact hn
    by_cases hpf : p = f
    · subst hpf
      have e : restoreFileF fail fs p = fs := by
        unfold restoreFileF
        rw [hn]
      rw [restoreF_cons, e]
      exact restoreF_no_backup_skips fail p rest fs
        (fun q hq => hall q (List.mem_cons_of_mem p hq)) hn
    · rw [restoreF_cons,
        restoreF_no_backup_skips fail p rest _
          (fun q hq => hall q (List.mem_cons_of_mem f hq)) hn1,
        restoreFileF_preserves_other fail fs f p hpf]

theorem fsWrite_mem_fst {α : Type} (fs : List (Str × α)) (k : Str) (v : α) (r : Str)
    (h : r ∈ fs.map Prod.fst) : r ∈ (fsWrite fs k v).map Prod.fst := by
  cases hL : fsLookup fs k with
  | none =>
    rw [fsWrite_map_fst_of_none fs k v hL]
    exact List.mem_append_left _ h
  | some c =>
    rw [fsWrite_map_fst_of_lookup fs k v c hL]
    exact h

/-- Restoring files that all exist keeps the directory listing unchanged. -/
theorem restoreF_map_fst (fail : Str → Bool) :
    ∀ (files : List Str) (fs : TextFS),
      (∀ q ∈ files, q ∈ fs.map Prod.fst) →
      (restoreF fail fs files).map Prod.fst = fs.map Prod.fst
  | [], _, _ => rfl
  | f :: rest, fs, hall => by
    have hf : f ∈ fs.map Prod.fst := hall f (List.mem_cons_self f rest)
    have e1 : (restoreFileF fail fs f).map Prod.fst = fs.map Prod.fst := by
      unfold restoreFileF
      cases hB : fsLookup fs (f ++ backupSuffix) with
      | none => rfl
      | some b =>
        dsimp only
        by_cases hfail : fail f = true
        · rw [if_pos hfail]
        · rw [if_neg hfail]
          obtain ⟨c, hc⟩ : ∃ c, fsLookup fs f = some c := by
            cases hL : fsLookup fs f with
            | none => exact absurd hf ((fsLookup_eq_none_iff fs f).mp hL)
            | some c => exact ⟨c, rfl⟩
          exact fsWrite_map_fst_of_lookup fs f b c hc
    rw [restoreF_cons,
      restoreF_map_fst fail rest _
        (fun q hq => by rw [e1]; exact hall q (List.mem_cons_of_mem f hq)),
      e1]

theorem findHtmlFiles_restoreAll (fs : TextFS) :
    findHtmlFiles (restoreAll fs) = findHtmlFiles fs := by
  have e : (restoreAll fs).map Prod.fst = fs.map Prod.fst :=
    restoreF_map_fst (fun _ => false) (findHtmlFiles fs) fs
      (fun q hq => ((mem_findHtmlFiles_iff fs q).mp hq).1)
  unfold findHtmlFiles
  rw [e]

/-! ## Claim C10 — restore's frame, idempotence and failure isolation -/

/-- C10: restore never modifies, deletes or creates any `.backup` path; the
no-failure restore is idempotent (running it twice yields the same file
contents as running it once); and a copy failure on one file does not prevent
restoring any other file whose own copy succeeds. -/
theorem restore_frame_idempotent_isolated (fail : Str → Bool) (fs : TextFS) :
    (∀ r, strEndsWith ".backup".data r = true →
      fsLookup (restoreF fail fs (findHtmlFiles fs)) r = fsLookup fs r) ∧
    (∀ q, fsLookup (restoreAll (restoreAll fs)) q = fsLookup (restoreAll fs) q) ∧
    (∀ p b, p ∈ findHtmlFiles fs → fail p = false →
      fsLookup fs (p ++ backupSuffix) = some b →
      fsLookup (restoreF fail fs (findHtmlFiles fs)) p = some b) := by
  have hall : ∀ q ∈ findHtmlFiles fs, strEndsWith ".html".data q = true :=
    fun q hq => ((mem_findHtmlFiles_iff fs q).mp hq).2
  refine ⟨?_, ?_, ?_⟩
  · exact fun r hr => restoreF_preserves_backup_files fail r hr (findHtmlFiles fs) fs hall
  · intro q
    have hall1 : ∀ r ∈ findHtmlFiles (restoreAll fs), strEndsWith ".html".data r = true :=
      fun r hr => ((mem_findHtmlFiles_iff _ r).mp hr).2
    by_cases hq : q ∈ findHtmlFiles (restoreAll fs)
    · cases hB : fsLookup (restoreAll fs) (q ++ backupSuffix) with
      | none =>
        exact restoreF_no_backup_skips (fun _ => false) q
          (findHtmlFiles (restoreAll fs)) (restoreAll fs) hall1 hB
      | some b =>
        have r2 : fsLookup (restoreAll (restoreAll fs)) q = some b :=
          restoreF_restores (fun _ => false) q b rfl
            (findHtmlFiles (restoreAll fs)) (restoreAll fs) hall1 hB (Or.inl hq)
        have hB0 : fsLookup fs (q ++ backupSuffix) = some b := by
          rw [← restoreF_preserves_backup_files (fun _ => false) (q ++ backupSuffix)
            (strEndsWith_append_self q backupSuffix) (findHtmlFiles fs) fs hall]
          exact hB
        have hq0 : q ∈ findHtmlFiles fs := by
          rw [← findHtmlFiles_restoreAll fs]
          exact hq
        have r1 : fsLookup (restoreAll fs) q = some b :=
          restoreF_restores (fun _ => false) q b rfl
            (findHtmlFiles fs) fs hall hB0 (Or.inl hq0)
        rw [r2, r1]
    · exact restoreF_preserves_not_mem (fun _ => false)
        (findHtmlFiles (restoreAll fs)) (restoreAll fs) q hq
  · exact fun p b hp hf hB =>
      restoreF_restores fail p b hf (findHtmlFiles fs) fs hall hB (Or.inl hp)

/-- Witness for C10: with a failing copy on `bad.html`, the other file is
still restored from its backup. -/
theorem restore_frame_idempotent_isolated_witness :
    fsLookup
      (restoreF (fun q => decide (q = "bad.html".data))
        [("x.html".data, "conv".data), ("x.html.backup".data, "orig".data),
         ("bad.html".data, "b1".data), ("bad.html.backup".data, "b0".data)]
        (findHtmlFiles
          [("x.html".data, "conv".data), ("x.html.backup".data, "orig".data),
           ("bad.html".data, "b1".data), ("bad.html.backup".data, "b0".data)]))
      "x.html".data = some "orig".data :=
  (restore_frame_idempotent_isolated (fun q => decide (q = "bad.html".data))
      [("x.html".data, "conv".data), ("x.html.backup".data, "orig".data),
       ("bad.html".data, "b1".data), ("bad.html.backup".data, "b0".data)]).2.2
    "x.html".data "orig".data (by decide) (by decide) (by decide)

/-! ## Convert-then-restore bookkeeping (claim C3) -/

theorem processHtmlFile_mem_fst (ad : Str) (assets : AssetFS) (fs : TextFS) (q r : Str)
    (h : r ∈ fs.map Prod.fst) : r ∈ (processHtmlFile ad assets fs q).map Prod.fst := by
  unfold processHtmlFile
  cases hq : fsLookup fs q with
  | none => exact h
  | some content =>
    dsimp only
    by_cases hm : (transformContent ad assets content).2 = true
    · rw [if_pos hm]
      apply fsWrite_mem_fst
      by_cases hb : (fsLookup fs (q ++ backupSuffix)).isSome = true
      · rw [if_pos hb]
        exact h
      · rw [if_neg hb]
        exact fsWrite_mem_fst _ _ _ _ h
    · rw [if_neg hm]
      exact h

/-- Along a conversion pass over `.html` files, a file `p` that starts with no
backup either still has no backup and its original content, or carries a
backup holding exactly that original content; and `p` stays listed. -/
theorem processFiles_roundtrip_invariant (ad : Str) (assets : AssetFS) (p c : Str)
    (hp : strEndsWith ".html".data p = true) :
    ∀ (files : List Str) (fs : TextFS),
      (∀ q ∈ files, strEndsWith ".html".data q = true) →
      p ∈ fs.map Prod.fst →
      ((fsLookup fs (p ++ backupSuffix) = none ∧ fsLookup fs p = some c) ∨
        fsLookup fs (p ++ backupSuffix) = some c) →
      p ∈ (processFiles ad assets fs files).map Prod.fst ∧
      ((fsLookup (processFiles ad assets fs files) (p ++ backupSuffix) = none ∧
          fsLookup (processFiles ad assets fs files) p = some c) ∨
        fsLookup (processFiles ad assets fs files) (p ++ backupSuffix) = some c)
  | [], _, _, hmem, hI => ⟨hmem, hI⟩
  | f :: rest, fs, hall, hmem, hI => by
    have hfhtml := hall f (List.mem_cons_self f rest)
    have hmem1 := processHtmlFile_mem_fst ad assets fs f p hmem
    have hI1 :
        (fsLookup (processHtmlFile ad assets fs f) (p ++ backupSuffix) = none ∧
          fsLookup (processHtmlFile ad assets fs f) p = some c) ∨
        fsLookup (processHtmlFile ad assets fs f) (p ++ backupSuffix) = some c := by
      rcases hI with ⟨hn, hc⟩ | hB
      · by_cases hpf : p = f
        · subst hpf
          by_cases hm : (transformContent ad assets c).2 = true
          · right
            have e : processHtmlFile ad assets fs p =
                fsWrite (fsWrite fs (p ++ backupSuffix) c) p
                  (transformContent ad assets c).1 := by
              unfold processHtmlFile
              rw [hc]
              dsimp only
              rw [if_pos hm, if_neg (by rw [hn]; simp)]
            rw [e, fsLookup_fsWrite_ne _ _ _ _ (Ne.symm (ne_self_append_backup p)),
              fsLookup_fsWrite_self]
          · left
            have hm2 : (transformContent ad assets c).2 = false := by
              cases hx : (transformContent ad assets c).2
              · rfl
              · exact absurd hx hm
            rw [processHtmlFile_unmodified ad assets fs p c hc hm2]
            exact ⟨hn, hc⟩
        · left
          constructor
          · rw [processHtmlFile_preserves_other ad assets fs f _
              (fun e => not_html_and_backup f hfhtml
                (e ▸ strEndsWith_append_self p backupSuffix))
              (fun e => hpf (backup_append_inj e))]
            exact hn
          · rw [processHtmlFile_preserves_other ad assets fs f p hpf
              (appended_backup_ne_html p f hp)]
            exact hc
      · right
        exact processHtmlFile_preserves_backup_files ad assets fs f _ c hfhtml
          (strEndsWith_append_self p backupSuffix) hB
    rw [processFiles_cons]
    exact processFiles_roundtrip_invariant ad assets p c hp rest _
      (fun q hq => hall q (List.mem_cons_of_mem f hq)) hmem1 hI1

/-! ## Claim C3 — convert-then-restore round-trip (corrected) -/

/-- Counterexample to C3 as stated: with a stale pre-existing backup (`old`),
convert does not refresh it (first-conversion-wins), and restore then yields
the stale content, not the content from immediately before the convert run. -/
theorem convert_restore_roundtrip_counterexample :
    fsLookup
      (restoreAll (convertAll "/a".data [("/a/i.png".data, [2])]
        [("x.html".data, "<img src=\"i.png\">".data),
         ("x.html.backup".data, "old".data)]))
      "x.html".data = some "old".data ∧
    fsLookup
      (restoreAll (convertAll "/a".data [("/a/i.png".data, [2])]
        [("x.html".data, "<img src=\"i.png\">".data),
         ("x.html.backup".data, "old".data)]))
      "x.html".data ≠ some "<img src=\"i.png\">".data :=
  ⟨by decide, by decide⟩

/-- C3 (amended): for every `.html` file that has **no pre-existing backup**,
running the whole conversion and then restore returns it byte-for-byte to its
pre-conversion content (the backup written by convert holds that content and
restore copies it back; when convert did not touch the file, restore skips
it). -/
theorem convert_restore_roundtrip_amended (ad : Str) (assets : AssetFS) (fs : TextFS)
    (p c : Str) (hp : strEndsWith ".html".data p = true)
    (hc : fsLookup fs p = some c)
    (hnb : fsLookup fs (p ++ backupSuffix) = none) :
    fsLookup (restoreAll (convertAll ad assets fs)) p = some c := by
  have hmem : p ∈ fs.map Prod.fst := by
    by_cases h : p ∈ fs.map Prod.fst
    · exact h
    · have := (fsLookup_eq_none_iff fs p).mpr h
      rw [hc] at this
      cases this
  obtain ⟨hmem2, hI2⟩ := processFiles_roundtrip_invariant ad assets p c hp
    (findHtmlFiles fs) fs
    (fun q hq => ((mem_findHtmlFiles_iff fs q).mp hq).2) hmem (Or.inl ⟨hnb, hc⟩)
  have hall2 : ∀ q ∈ findHtmlFiles (convertAll ad assets fs),
      strEndsWith ".html".data q = true :=
    fun q hq => ((mem_findHtmlFiles_iff _ q).mp hq).2
  unfold restoreAll
  rcases hI2 with ⟨hn2, hc2⟩ | hB2
  · rw [restoreF_no_backup_skips (fun _ => false) p
      (findHtmlFiles (convertAll ad assets fs)) (convertAll ad assets fs) hall2 hn2]
    exact hc2
  · have hpmem2 : p ∈ findHtmlFiles (convertAll ad assets fs) :=
      (mem_findHtmlFiles_iff _ p).mpr ⟨hmem2, hp⟩
    exact restoreF_restores (fun _ => false) p c rfl
      (findHtmlFiles (convertAll ad assets fs)) (convertAll ad assets fs)
      hall2 hB2 (Or.inl hpmem2)

/-- Witness for the amended C3: a backup-free convertible file round-trips to
its original bytes. -/
theorem convert_restore_roundtrip_amended_witness :
    fsLookup
      (restoreAll (convertAll "/a".data [("/a/i.png".data, [2])]
        [("x.html".data, "<img src=\"i.png\">".data)]))
      "x.html".data = some "<img src=\"i.png\">".data :=
  convert_restore_roundtrip_amended "/a".data [("/a/i.png".data, [2])]
    [("x.html".data, "<img src=\"i.png\">".data)] "x.html".data
    "<img src=\"i.png\">".data (by decide) (by decide) (by decide)

end B64
